import Mathlib

/-!
# Verification of the Rustorrent bencode decoder and torrent-metadata schema

Shallow embedding of `bencode-decoder/src/utils.rs`, `bencode-decoder/src/lib.rs`
and `torrent/src/meta_info.rs`.

Conventions of the embedding:
* Rust byte slices (`&[u8]`) become `List Nat` with every entry a byte value.
* `u64` becomes `Nat` with explicit bounds checks against `2^64 - 1`
  (`checked_mul` / `checked_add` are modelled by comparing against the bound);
  `i64` becomes `Int`; `usize` becomes `Nat`.
* A Rust function `fn f(input: &[u8], len: &mut usize) -> Option<T>` becomes
  `f : List Nat → Nat → Option T × Nat`: the second argument is the value of
  `*len` on entry and the second component of the result is the value of
  `*len` on return.
* Rust indexing `bencode[i]` that is dominated by a short-circuit bounds guard
  is modelled by `List.getD`; the two indexing sites in `decode_list` and
  `decode_dictionary` that are *not* guarded are modelled explicitly, with a
  `PRes.panic` outcome when the index is out of bounds.
* The mutually recursive decoders are given a fuel parameter to make the
  recursion structural; the top-level entry point `decode` supplies
  `3 * input.length + 3` fuel, which dominates the actual recursion depth
  (every recursive step either strictly shrinks the slice or strictly
  advances the cursor past at least one byte).
-/

/-- Outcome of running possibly-panicking Rust code: either an abort
(index out of bounds), fuel exhaustion of the embedding, or a normal result. -/
inductive PRes (α : Type) where
  | panic : PRes α
  | fuelOut : PRes α
  | res : α → PRes α
deriving DecidableEq, Repr

/-- `u64::MAX`. -/
def u64MAXn : Nat := 2 ^ 64 - 1

/-- `i64::MAX` as a natural number. -/
def i64MAXn : Nat := 2 ^ 63 - 1

/-- The digit-accumulation `for` loop of `decode_u64`
(utils.rs lines 44-57): `num` is the accumulator, `len` is the current value
of `*len`.  `checked_mul`/`checked_add` failure (the `?` operator) returns
`None` with `*len` already incremented for the digit being processed. -/
def decodeU64Loop : List Nat → Nat → Nat → Option Nat × Nat
  | [], num, len => (some num, len)
  | c :: rest, num, len =>
    if 48 ≤ c ∧ c ≤ 57 then
      if num * 10 > u64MAXn then (none, len + 1)
      else if num * 10 + (c - 48) > u64MAXn then (none, len + 1)
      else decodeU64Loop rest (num * 10 + (c - 48)) (len + 1)
    else (some num, len)

/-- `decode_u64` (utils.rs lines 35-64, identical copy in lib.rs lines 27-56). -/
def decode_u64 (ascii_num : List Nat) (len : Nat) : Option Nat × Nat :=
  if ascii_num.length = 0 then (none, 0)
  else if 2 ≤ ascii_num.length ∧ ascii_num.headD 0 = 48 then (some 0, 1)
  else
    match decodeU64Loop ascii_num 0 len with
    | (none, len2) => (none, len2)
    | (some num, len2) =>
      if num = 0 ∧ (len2 = 0 ∨ 1 < len2) then (none, len2) else (some num, len2)

/-- `decode_i64` (utils.rs lines 87-136, identical copy in lib.rs lines 79-128).
The sign offset `s` is 1 exactly when the first byte is `'-'`; the
`num.cmp(&(i64::MIN as u64))` three-way match is written as an `if` chain
against `2^63`. -/
def decode_i64 (ascii_num : List Nat) (len : Nat) : Option Int × Nat :=
  if ascii_num.length = 0 then (none, len)
  else
    let s : Nat := if ascii_num.headD 0 = 45 then 1 else 0
    match decode_u64 (ascii_num.drop s) len with
    | (none, len1) => (none, len1 + s)
    | (some num, len1) =>
      if s = 0 then
        if num ≤ i64MAXn then (some (Int.ofNat num), len1 + s) else (none, len1 + s)
      else
        if num < 2 ^ 63 then
          if num = 0 then (none, len1 + s) else (some (-(num : Int)), len1 + s)
        else if num = 2 ^ 63 then (some (-(2 ^ 63 : Int)), len1 + s)
        else (none, len1 + s)

/-- The decoded value tree (`Element` in lib.rs).  Rust `String` is modelled
by its UTF-8 byte list, and the `HashMap<String, Element>` by an association
list with unique keys on which insertion overwrites. -/
inductive Element where
  | byteString : List Nat → Element
  | integer : Int → Element
  | list : List Element → Element
  | dictionary : List (List Nat × Element) → Element

/-- `HashMap::get`. -/
def dictGet (d : List (List Nat × Element)) (k : List Nat) : Option Element :=
  (d.find? (fun e => e.1 == k)).map (fun e => e.2)

/-- `HashMap::insert`: overwrite the value if the key is present, else add. -/
def dictInsert (d : List (List Nat × Element)) (k : List Nat) (v : Element) :
    List (List Nat × Element) :=
  match d with
  | [] => [(k, v)]
  | e :: rest => if e.1 == k then (k, v) :: rest else e :: dictInsert rest k v

/-- Whether a byte is a UTF-8 continuation byte (`0x80..=0xBF`). -/
def utf8Cont (c : Nat) : Bool := decide (128 ≤ c) && decide (c ≤ 191)

/-- Validity of a byte list as UTF-8, exactly the condition under which
`String::from_utf8` succeeds (no overlong forms, no surrogates, maximum
code point `0x10FFFF`). -/
def utf8Valid : List Nat → Bool
  | [] => true
  | c :: rest =>
    if c ≤ 127 then utf8Valid rest
    else if 194 ≤ c ∧ c ≤ 223 then
      match rest with
      | c1 :: r => utf8Cont c1 && utf8Valid r
      | [] => false
    else if c = 224 then
      match rest with
      | c1 :: c2 :: r => decide (160 ≤ c1) && decide (c1 ≤ 191) && utf8Cont c2 && utf8Valid r
      | _ => false
    else if (225 ≤ c ∧ c ≤ 236) ∨ c = 238 ∨ c = 239 then
      match rest with
      | c1 :: c2 :: r => utf8Cont c1 && utf8Cont c2 && utf8Valid r
      | _ => false
    else if c = 237 then
      match rest with
      | c1 :: c2 :: r => decide (128 ≤ c1) && decide (c1 ≤ 159) && utf8Cont c2 && utf8Valid r
      | _ => false
    else if c = 240 then
      match rest with
      | c1 :: c2 :: c3 :: r =>
        decide (144 ≤ c1) && decide (c1 ≤ 191) && utf8Cont c2 && utf8Cont c3 && utf8Valid r
      | _ => false
    else if 241 ≤ c ∧ c ≤ 243 then
      match rest with
      | c1 :: c2 :: c3 :: r => utf8Cont c1 && utf8Cont c2 && utf8Cont c3 && utf8Valid r
      | _ => false
    else if c = 244 then
      match rest with
      | c1 :: c2 :: c3 :: r =>
        decide (128 ≤ c1) && decide (c1 ≤ 143) && utf8Cont c2 && utf8Cont c3 && utf8Valid r
      | _ => false
    else false

/-- `decode_bytesstring` (lib.rs lines 130-147).  The `bencode[bytes_len_len]`
index is dominated by the short-circuiting `start_idx > bencode.len()` guard,
so it is modelled with `getD`. -/
def decode_bytesstring (bencode : List Nat) (len : Nat) : Option Element × Nat :=
  if bencode.length = 0 then (none, 0)
  else
    match decode_u64 bencode 0 with
    | (none, _) => (none, len)
    | (some bytes_len, bytes_len_len) =>
      if bytes_len_len + 1 > bencode.length then (none, len)
      else if bencode.getD bytes_len_len 0 ≠ 58 then (none, len)
      else if bytes_len_len + 1 + bytes_len > bencode.length then (none, len)
      else
        (some (.byteString ((bencode.drop (bytes_len_len + 1)).take bytes_len)),
          bytes_len_len + 1 + bytes_len)

/-- `decode_integer` (lib.rs lines 149-162).  The `bencode[1 + int_len]`
index is dominated by the short-circuiting `1 + int_len >= bencode.len()`
guard, so it is modelled with `getD`. -/
def decode_integer (bencode : List Nat) (len : Nat) : Option Element × Nat :=
  if bencode.length < 3 ∨ bencode.headD 0 ≠ 105 then (none, 0)
  else
    match decode_i64 (bencode.drop 1) 0 with
    | (none, _) => (none, len)
    | (some int, int_len) =>
      if 1 + int_len ≥ bencode.length then (none, len)
      else if bencode.getD (1 + int_len) 0 ≠ 101 then (none, len)
      else (some (.integer int), int_len + 2)

/-- A pending call of the mutually recursive decoder functions in lib.rs:
`all`/`list`/`dict` carry the slice and the entry value of `*len`;
`listLoop`/`dictLoop` are the `while` loops of `decode_list` /
`decode_dictionary`, carrying the cursor `idx`, the accumulator, and the
entry value `len0` of `*len`.  A separate descriptor type lets the mutual
recursion be a single structural recursion on fuel, so that it reduces. -/
inductive DCall where
  | all (bencode : List Nat) (len : Nat)
  | list (bencode : List Nat) (len : Nat)
  | listLoop (bencode : List Nat) (idx : Nat) (acc : List Element) (len0 : Nat)
  | dict (bencode : List Nat) (len : Nat)
  | dictLoop (bencode : List Nat) (idx : Nat) (acc : List (List Nat × Element)) (len0 : Nat)

/-- One fuel-metered evaluator for the mutually recursive part of lib.rs
(lines 164-242).  The fuel only bounds the recursion depth of the embedding.
The two post-loop `bencode[idx]` indexing sites are unguarded in the source:
when the loop exits with `idx` equal to the length, they are out-of-bounds
aborts, modelled by `.panic`.  In both loops, returning `(none, len0)`
corresponds to a `return None` that leaves the caller's `*len` untouched. -/
def decodeStep : Nat → DCall → PRes (Option Element × Nat)
  | 0, _ => .fuelOut
  | fuel + 1, call =>
    match call with
    | .all bencode len =>
      -- decode_all (lib.rs lines 220-242): dispatch on the first byte
      if bencode.length = 0 then .res (none, len)
      else
        let c := bencode.headD 0
        if 48 ≤ c ∧ c ≤ 57 then .res (decode_bytesstring bencode len)
        else if c = 105 then .res (decode_integer bencode len)
        else if c = 108 then decodeStep fuel (.list bencode len)
        else if c = 100 then decodeStep fuel (.dict bencode len)
        else .res (none, len)
    | .list bencode len =>
      -- decode_list (lib.rs lines 164-185): guard, then the while loop
      if bencode.length < 2 ∨ bencode.headD 0 ≠ 108 then .res (none, 0)
      else decodeStep fuel (.listLoop bencode 1 [] len)
    | .listLoop bencode idx acc len0 =>
      if idx < bencode.length ∧ bencode.getD idx 0 ≠ 101 then
        match decodeStep fuel (.all (bencode.drop idx) 0) with
        | .panic => .panic
        | .fuelOut => .fuelOut
        | .res (none, _) => .res (none, len0)
        | .res (some elem, list_len) =>
          decodeStep fuel (.listLoop bencode (idx + list_len) (acc ++ [elem]) len0)
      else
        if idx < bencode.length then
          if bencode.getD idx 0 ≠ 101 then .res (none, idx)
          else .res (some (.list acc), idx + 1)
        else .panic
    | .dict bencode len =>
      -- decode_dictionary (lib.rs lines 187-218): guard, then the loop
      if bencode.length < 2 ∨ bencode.headD 0 ≠ 100 then .res (none, 0)
      else decodeStep fuel (.dictLoop bencode 1 [] len)
    | .dictLoop bencode idx acc len0 =>
      if idx < bencode.length ∧ bencode.getD idx 0 ≠ 101 then
        match decode_bytesstring (bencode.drop idx) 0 with
        | (some (.byteString key), key_len) =>
          -- the key must pass String::from_utf8 (modelled by utf8Valid)
          if utf8Valid key then
            if idx + key_len ≥ bencode.length then .res (none, len0)
            else
              match decodeStep fuel (.all (bencode.drop (idx + key_len)) 0) with
              | .panic => .panic
              | .fuelOut => .fuelOut
              | .res (none, _) => .res (none, len0)
              | .res (some dict_val, val_len) =>
                decodeStep fuel
                  (.dictLoop bencode (idx + key_len + val_len) (dictInsert acc key dict_val) len0)
          else .res (none, len0)
        | _ => .res (none, len0)
      else
        if idx < bencode.length then
          if bencode.getD idx 0 ≠ 101 then .res (none, len0)
          else .res (some (.dictionary acc), idx + 1)
        else .panic

/-- `decode_all` (lib.rs lines 220-242). -/
def decode_all (fuel : Nat) (bencode : List Nat) (len : Nat) : PRes (Option Element × Nat) :=
  decodeStep fuel (.all bencode len)

/-- `decode_list` (lib.rs lines 164-185). -/
def decode_list (fuel : Nat) (bencode : List Nat) (len : Nat) : PRes (Option Element × Nat) :=
  decodeStep fuel (.list bencode len)

/-- `decode_dictionary` (lib.rs lines 187-218). -/
def decode_dictionary (fuel : Nat) (bencode : List Nat) (len : Nat) :
    PRes (Option Element × Nat) :=
  decodeStep fuel (.dict bencode len)

/-- `decode` (lib.rs lines 249-256): the strict entry point, failing unless
`decode_all` consumed the whole input. -/
def decode (bencode : List Nat) : PRes (Option Element) :=
  match decode_all (3 * bencode.length + 3) bencode 0 with
  | .panic => .panic
  | .fuelOut => .fuelOut
  | .res (ret, len) => if len ≠ bencode.length then .res none else .res ret

/-- ASCII byte list of a string literal (every character used is ASCII). -/
def strBytes (s : String) : List Nat := s.toList.map Char.toNat

/-! ## Decimal literals

`natDecimal n` is the ASCII byte list of the decimal literal of `n`, used to
state the numeric round-trip claims.  The fuel argument of `digitsRevGo`
(first argument) makes the recursion structural; `n` itself is always enough
fuel since a number has at most `n` digits. -/

/-- Little-endian decimal digits of `n` as ASCII bytes, with fuel. -/
def digitsRevGo : Nat → Nat → List Nat
  | _, 0 => []
  | 0, _ + 1 => []
  | f + 1, n + 1 => ((n + 1) % 10 + 48) :: digitsRevGo f ((n + 1) / 10)

/-- ASCII bytes of the decimal literal of `n` (big-endian, no leading zeros,
`"0"` for zero). -/
def natDecimal (n : Nat) : List Nat :=
  if n = 0 then [48] else (digitsRevGo n n).reverse

/-- Value accumulated by the digit loop over the digit list `ds` starting
from accumulator `a`. -/
def foldlVal (a : Nat) (ds : List Nat) : Nat :=
  ds.foldl (fun acc d => acc * 10 + (d - 48)) a

/-! ## The torrent metadata schema (`torrent/src/meta_info.rs`)

The `Element` accessor methods (`convert_to_u64`, `convert_to_str`, …) belong
to the `bencode_decoder` crate but their source is not part of the repository
snapshot (only their call sites in `meta_info.rs` are), so they are modelled
from the spec's ValueAccessors section. -/

/-- `HashMap::remove`-style erasure of a key, used only to state claims. -/
def dictErase (d : List (List Nat × Element)) (k : List Nat) : List (List Nat × Element) :=
  d.filter (fun e => ¬(e.1 = k))

/-- Rust `collect::<Option<Vec<_>>>()`: all-or-nothing collection. -/
def optionCollect {α : Type} : List (Option α) → Option (List α)
  | [] => some []
  | none :: _ => none
  | some a :: rest => (optionCollect rest).map (fun l => a :: l)

/-- Modelled from the spec: `Element::convert_to_u64` (ValueAccessors,
"as-unsigned — reinterprets the signed integer's bit pattern as unsigned");
the accessor source is not in the repository snapshot. -/
def convert_to_u64 : Element → Option Nat
  | .integer n => some ((n % (2 ^ 64 : Int)).toNat)
  | _ => none

/-- Modelled from the spec: `Element::convert_to_i64` (ValueAccessors,
"as-integer"); the accessor source is not in the repository snapshot. -/
def convert_to_i64 : Element → Option Int
  | .integer n => some n
  | _ => none

/-- Modelled from the spec: `Element::convert_to_str` (ValueAccessors,
"as-UTF8-string — fails if bytes are not valid UTF-8"); the accessor source
is not in the repository snapshot.  The resulting Rust string is modelled by
its byte list. -/
def convert_to_str : Element → Option (List Nat)
  | .byteString bs => if utf8Valid bs then some bs else none
  | _ => none

/-- Modelled from the spec: `Element::convert_to_string`, the owned variant
of `convert_to_str`; the accessor source is not in the repository snapshot. -/
def convert_to_string (e : Element) : Option (List Nat) :=
  convert_to_str e

/-- Modelled from the spec: `Element::convert_to_ref_vec_u8` (ValueAccessors,
"as-bytes"); the accessor source is not in the repository snapshot. -/
def convert_to_ref_vec_u8 : Element → Option (List Nat)
  | .byteString bs => some bs
  | _ => none

/-- Modelled from the spec: `Element::convert_to_ref_list` (ValueAccessors,
"as-list"); the accessor source is not in the repository snapshot. -/
def convert_to_ref_list : Element → Option (List Element)
  | .list l => some l
  | _ => none

/-- Modelled from the spec: `Element::convert_to_dict` /
`Element::convert_to_ref_dict` (ValueAccessors, "as-dictionary"); the
accessor source is not in the repository snapshot. -/
def convert_to_dict : Element → Option (List (List Nat × Element))
  | .dictionary d => some d
  | _ => none

/-- Modelled from the spec: `Element::convert_to_string_list` (ValueAccessors,
"as-list-of-strings — fails the whole projection if any element is not a
valid UTF-8 byte string"); the accessor source is not in the repository
snapshot. -/
def convert_to_string_list : Element → Option (List (List Nat))
  | .list l => optionCollect (l.map convert_to_str)
  | _ => none

/-- `CommonFileInfo` (meta_info.rs lines 7-11). -/
structure CommonFileInfo where
  piece_length : Nat
  pieces : List (List Nat)
  is_private : Bool
deriving DecidableEq

/-- `pieces.chunks(20)` with fuel (first argument) to keep the recursion
structural; `l.length` is always enough fuel since each step removes at
least one element. -/
def chunksGo : Nat → List Nat → List (List Nat)
  | _, [] => []
  | 0, _ :: _ => []
  | f + 1, x :: xs => ((x :: xs).take 20) :: chunksGo f ((x :: xs).drop 20)

/-- `pieces.chunks(PIECE_HASH_SIZE).map(|chk| chk.to_vec()).collect()`. -/
def chunks20 (l : List Nat) : List (List Nat) := chunksGo l.length l

/-- `CommonFileInfo::new` (meta_info.rs lines 17-30). -/
def CommonFileInfo.new (piece_length : Nat) (pieces : List Nat) (is_private : Bool) :
    Option CommonFileInfo :=
  if pieces.length % 20 ≠ 0 then none
  else some ⟨piece_length, chunks20 pieces, is_private⟩

/-- `CommonFileInfo::from_dict` (meta_info.rs lines 40-54). -/
def CommonFileInfo.from_dict (info_dict : List (List Nat × Element)) :
    Option CommonFileInfo :=
  match dictGet info_dict (strBytes "piece length") with
  | none => none
  | some ple =>
    match convert_to_u64 ple with
    | none => none
    | some piece_length =>
      match dictGet info_dict (strBytes "pieces") with
      | none => none
      | some pe =>
        match convert_to_ref_vec_u8 pe with
        | none => none
        | some pieces =>
          let is_private : Bool :=
            match dictGet info_dict (strBytes "private") with
            | some x =>
              match convert_to_i64 x with
              | some y => y == 1
              | none => false
            | none => false
          CommonFileInfo.new piece_length pieces is_private

/-- `SingleFileInfo` (meta_info.rs lines 57-63). -/
structure SingleFileInfo where
  common_file_info : CommonFileInfo
  name : List Nat
  length : Nat
  md5sum : Option (List Nat)
deriving DecidableEq

/-- `SingleFileInfo::new_with_common_info` (meta_info.rs lines 67-87). -/
def SingleFileInfo.new_with_common_info (cfi : CommonFileInfo)
    (info_dict : List (List Nat × Element)) : Option SingleFileInfo :=
  match dictGet info_dict (strBytes "name") with
  | none => none
  | some ne =>
    match convert_to_str ne with
    | none => none
    | some name =>
      match dictGet info_dict (strBytes "length") with
      | none => none
      | some le =>
        match convert_to_u64 le with
        | none => none
        | some length =>
          let md5sum : Option (List Nat) :=
            match dictGet info_dict (strBytes "md5sum") with
            | some x => convert_to_str x
            | none => none
          some ⟨cfi, name, length, md5sum⟩

/-- `MultipleFileInfoFile` (meta_info.rs lines 90-95). -/
structure MultipleFileInfoFile where
  length : Nat
  path : List (List Nat)
  md5sum : Option (List Nat)
deriving DecidableEq

/-- The body of the `for file in files_element` loop of
`MultipleFileInfo::new_with_common_info` (meta_info.rs lines 145-157). -/
def multiFileOfElement (file : Element) : Option MultipleFileInfoFile :=
  match convert_to_dict file with
  | none => none
  | some file_dict =>
    match dictGet file_dict (strBytes "length") with
    | none => none
    | some le =>
      match convert_to_u64 le with
      | none => none
      | some length =>
        match dictGet file_dict (strBytes "path") with
        | none => none
        | some pe =>
          match convert_to_string_list pe with
          | none => none
          | some path =>
            let md5sum : Option (List Nat) :=
              match dictGet file_dict (strBytes "md5sum") with
              | some x => convert_to_str x
              | none => none
            some ⟨length, path, md5sum⟩

/-- `MultipleFileInfo` (meta_info.rs lines 125-130). -/
structure MultipleFileInfo where
  common_file_info : CommonFileInfo
  name : List Nat
  files : List MultipleFileInfoFile
deriving DecidableEq

/-- `MultipleFileInfo::new_with_common_info` (meta_info.rs lines 134-160):
the `?` inside the loop makes the whole construction fail on the first bad
element, which is exactly all-or-nothing collection. -/
def MultipleFileInfo.new_with_common_info (cfi : CommonFileInfo) (name : List Nat)
    (files_element : List Element) : Option MultipleFileInfo :=
  match optionCollect (files_element.map multiFileOfElement) with
  | none => none
  | some files => some ⟨cfi, name, files⟩

/-- `FileInfo` (meta_info.rs lines 163-167). -/
inductive FileInfo where
  | singleFile : SingleFileInfo → FileInfo
  | multipleFile : MultipleFileInfo → FileInfo
deriving DecidableEq

/-- `MetaInfo` (meta_info.rs lines 169-178). -/
structure MetaInfo where
  info : FileInfo
  announce : List Nat
  announce_list : Option (List (List (List Nat)))
  creation_date : Option Nat
  comment : Option (List Nat)
  created_by : Option (List Nat)
  encoding : Option (List Nat)
deriving DecidableEq

/-- `MetaInfo::new` (meta_info.rs lines 182-192): all optional fields absent. -/
def MetaInfo.new (info : FileInfo) (announce : List Nat) : MetaInfo :=
  ⟨info, announce, none, none, none, none, none⟩

/-- The `"creation date"` arm of the `for key in hashmap.keys()` loop of
`MetaInfo::from_element` (meta_info.rs lines 233-235): the `Option` result
of the conversion is assigned directly (a failed conversion just leaves the
field absent). -/
def applyCreationDate (hashmap : List (List Nat × Element)) (ret : MetaInfo) : MetaInfo :=
  match dictGet hashmap (strBytes "creation date") with
  | none => ret
  | some v => { ret with creation_date := convert_to_u64 v }

/-- The `"comment"` arm of the keys loop (meta_info.rs lines 236-238). -/
def applyComment (hashmap : List (List Nat × Element)) (ret : MetaInfo) : MetaInfo :=
  match dictGet hashmap (strBytes "comment") with
  | none => ret
  | some v => { ret with comment := convert_to_string v }

/-- The `"created by"` arm of the keys loop (meta_info.rs lines 239-241). -/
def applyCreatedBy (hashmap : List (List Nat × Element)) (ret : MetaInfo) : MetaInfo :=
  match dictGet hashmap (strBytes "created by") with
  | none => ret
  | some v => { ret with created_by := convert_to_string v }

/-- The `"encoding"` arm of the keys loop (meta_info.rs lines 242-244). -/
def applyEncoding (hashmap : List (List Nat × Element)) (ret : MetaInfo) : MetaInfo :=
  match dictGet hashmap (strBytes "encoding") with
  | none => ret
  | some v => { ret with encoding := convert_to_string v }

/-- The four infallible arms of the `for key in hashmap.keys()` loop
(meta_info.rs lines 233-244).  Keys of a `HashMap` are unique and each arm
writes one distinct field reading only that key's value, so the loop is
equivalent to these per-key updates, in any order. -/
def applyRest (hashmap : List (List Nat × Element)) (ret : MetaInfo) : MetaInfo :=
  applyEncoding hashmap (applyCreatedBy hashmap (applyComment hashmap
    (applyCreationDate hashmap ret)))

/-- The `"announce-list"` arm of the keys loop (meta_info.rs lines 225-232)
followed by the other optional arms.  `convert_to_ref_list` failure
propagates through `?` and fails the whole document; a failure of
any element's `convert_to_string_list` only makes the collected
`Option<Vec<Vec<String>>>` absent. -/
def applyOptionals (hashmap : List (List Nat × Element)) (ret : MetaInfo) :
    Option MetaInfo :=
  match dictGet hashmap (strBytes "announce-list") with
  | none => some (applyRest hashmap ret)
  | some v =>
    match convert_to_ref_list v with
    | none => none
    | some lst =>
      some (applyRest hashmap
        { ret with announce_list := optionCollect (lst.map convert_to_string_list) })

/-- `MetaInfo::from_element` (meta_info.rs lines 197-250). -/
def MetaInfo.from_element (element : Element) : Option MetaInfo :=
  match element with
  | .dictionary hashmap =>
    match dictGet hashmap (strBytes "announce") with
    | none => none
    | some ae =>
      match convert_to_str ae with
      | none => none
      | some announce =>
        match dictGet hashmap (strBytes "info") with
        | none => none
        | some ie =>
          match convert_to_dict ie with
          | none => none
          | some info_dict =>
            match CommonFileInfo.from_dict info_dict with
            | none => none
            | some common_file_info =>
              match dictGet info_dict (strBytes "name") with
              | none => none
              | some ne =>
                match convert_to_str ne with
                | none => none
                | some name =>
                  let infoOpt : Option FileInfo :=
                    match dictGet info_dict (strBytes "files") with
                    | some files =>
                      match convert_to_ref_list files with
                      | none => none
                      | some fl =>
                        match MultipleFileInfo.new_with_common_info
                            common_file_info name fl with
                        | none => none
                        | some mi => some (FileInfo.multipleFile mi)
                    | none =>
                      match SingleFileInfo.new_with_common_info
                          common_file_info info_dict with
                      | none => none
                      | some si => some (FileInfo.singleFile si)
                  match infoOpt with
                  | none => none
                  | some info => applyOptionals hashmap (MetaInfo.new info announce)
  | _ => none

theorem foldlVal_append (a : Nat) (xs ys : List Nat) :
    foldlVal a (xs ++ ys) = foldlVal (foldlVal a xs) ys := by
  simp [foldlVal, List.foldl_append]

theorem foldlVal_le (a : Nat) (ds : List Nat) : a ≤ foldlVal a ds := by
  induction ds generalizing a with
  | nil => exact Nat.le_refl a
  | cons d ds ih =>
    calc a ≤ a * 10 + (d - 48) := by omega
    _ ≤ foldlVal (a * 10 + (d - 48)) ds := ih _
    _ = foldlVal a (d :: ds) := rfl

theorem digitsRevGo_digits : ∀ f n d, d ∈ digitsRevGo f n → 48 ≤ d ∧ d ≤ 57 := by
  intro f
  induction f with
  | zero => intro n d hd; cases n <;> simp [digitsRevGo] at hd
  | succ f ih =>
    intro n d hd
    cases n with
    | zero => simp [digitsRevGo] at hd
    | succ m =>
      simp only [digitsRevGo, List.mem_cons] at hd
      rcases hd with h | h
      · have : (m + 1) % 10 < 10 := Nat.mod_lt _ (by omega)
        omega
      · exact ih _ _ h

theorem digitsRevGo_ne_nil : ∀ f n, 0 < n → n ≤ f → digitsRevGo f n ≠ [] := by
  intro f n h1 h2
  cases f with
  | zero => omega
  | succ f => cases n with
    | zero => omega
    | succ m => simp [digitsRevGo]

theorem digitsRevGo_val : ∀ f n a, n ≤ f →
    foldlVal a (digitsRevGo f n).reverse = a * 10 ^ (digitsRevGo f n).length + n := by
  intro f
  induction f with
  | zero =>
    intro n a h
    have : n = 0 := by omega
    subst this
    simp [digitsRevGo, foldlVal]
  | succ f ih =>
    intro n a h
    cases n with
    | zero => simp [digitsRevGo, foldlVal]
    | succ m =>
      have hdiv : (m + 1) / 10 ≤ f := by
        have := Nat.div_lt_self (Nat.succ_pos m) (by omega : 1 < 10)
        omega
      simp only [digitsRevGo, List.reverse_cons]
      rw [foldlVal_append, ih _ a hdiv]
      have hmod : (m + 1) % 10 + 48 - 48 = (m + 1) % 10 := by omega
      simp only [foldlVal, List.foldl_cons, List.foldl_nil, hmod,
        List.length_cons]
      have hdm : 10 * ((m + 1) / 10) + (m + 1) % 10 = m + 1 := Nat.div_add_mod (m + 1) 10
      ring_nf
      omega

theorem digitsRevGo_getLast : ∀ f n, 0 < n → n ≤ f →
    ∀ d, (digitsRevGo f n).getLast? = some d → 49 ≤ d ∧ d ≤ 57 := by
  intro f
  induction f with
  | zero => intro n h1 h2; omega
  | succ f ih =>
    intro n h1 h2 d hd
    cases n with
    | zero => omega
    | succ m =>
      simp only [digitsRevGo] at hd
      by_cases hq : (m + 1) / 10 = 0
      · have h9 : m + 1 ≤ 9 := by
          by_contra hc
          have : 1 ≤ (m + 1) / 10 := (Nat.one_le_div_iff (by omega)).mpr (by omega)
          omega
        rw [hq] at hd
        simp only [digitsRevGo, List.getLast?_singleton, Option.some.injEq] at hd
        have : (m + 1) % 10 = m + 1 := Nat.mod_eq_of_lt (by omega)
        omega
      · have hdiv : (m + 1) / 10 ≤ f := by
          have := Nat.div_lt_self (Nat.succ_pos m) (by omega : 1 < 10)
          omega
        have hne := digitsRevGo_ne_nil f ((m + 1) / 10) (by omega) hdiv
        rcases List.exists_cons_of_ne_nil hne with ⟨x, xs, hx⟩
        rw [hx] at hd
        rw [List.getLast?_cons_cons] at hd
        exact ih _ (by omega) hdiv d (by rw [hx]; exact hd)

theorem natDecimal_digits (n : Nat) : ∀ d ∈ natDecimal n, 48 ≤ d ∧ d ≤ 57 := by
  intro d hd
  unfold natDecimal at hd
  by_cases h : n = 0
  · simp [h] at hd; omega
  · rw [if_neg h, List.mem_reverse] at hd
    exact digitsRevGo_digits n n d hd

theorem natDecimal_ne_nil (n : Nat) : natDecimal n ≠ [] := by
  unfold natDecimal
  by_cases h : n = 0
  · simp [h]
  · rw [if_neg h]
    simp only [ne_eq, List.reverse_eq_nil_iff]
    exact digitsRevGo_ne_nil n n (by omega) (Nat.le_refl n)

theorem natDecimal_val (n : Nat) : foldlVal 0 (natDecimal n) = n := by
  unfold natDecimal
  by_cases h : n = 0
  · simp [h, foldlVal]
  · rw [if_neg h, digitsRevGo_val n n 0 (Nat.le_refl n)]
    omega

theorem natDecimal_head (n : Nat) (h : 0 < n) :
    49 ≤ (natDecimal n).headD 0 ∧ (natDecimal n).headD 0 ≤ 57 := by
  unfold natDecimal
  rw [if_neg (by omega)]
  have hh : (digitsRevGo n n).reverse.head? = (digitsRevGo n n).getLast? :=
    List.head?_reverse _
  rcases List.exists_cons_of_ne_nil (digitsRevGo_ne_nil n n h (Nat.le_refl n)) with ⟨x, xs, hx⟩
  have hlast : ∃ d, (digitsRevGo n n).getLast? = some d := by
    rw [hx]; exact ⟨(x :: xs).getLast (by simp), List.getLast?_eq_getLast _ _⟩
  rcases hlast with ⟨d, hd⟩
  have hbound := digitsRevGo_getLast n n h (Nat.le_refl n) d hd
  rw [hd] at hh
  rcases List.exists_cons_of_ne_nil
    (by simp only [ne_eq, List.reverse_eq_nil_iff]
        exact digitsRevGo_ne_nil n n h (Nat.le_refl n) :
      (digitsRevGo n n).reverse ≠ []) with ⟨y, ys, hy⟩
  rw [hy] at hh ⊢
  simp only [List.head?_cons, Option.some.injEq] at hh
  subst hh
  simpa using hbound

/-! ## Lemmas about the digit loop of `decode_u64` -/

/-- On a run of digits whose accumulated value stays within `u64::MAX`,
followed by a non-digit (or nothing), the loop consumes exactly the digits. -/
theorem decodeU64Loop_run (ds : List Nat) (rest : List Nat) (a l : Nat)
    (hds : ∀ d ∈ ds, 48 ≤ d ∧ d ≤ 57)
    (hrest : ∀ c, rest.head? = some c → ¬(48 ≤ c ∧ c ≤ 57))
    (hbound : foldlVal a ds ≤ u64MAXn) :
    decodeU64Loop (ds ++ rest) a l = (some (foldlVal a ds), l + ds.length) := by
  induction ds generalizing a l with
  | nil =>
    cases rest with
    | nil => simp [decodeU64Loop, foldlVal]
    | cons c r =>
      have := hrest c rfl
      simp only [List.nil_append, decodeU64Loop, if_neg this]
      simp [foldlVal]
  | cons d ds ih =>
    have hd := hds d (List.mem_cons_self d ds)
    have hval : foldlVal a (d :: ds) = foldlVal (a * 10 + (d - 48)) ds := rfl
    have hmono : a * 10 + (d - 48) ≤ foldlVal a (d :: ds) := by
      rw [hval]; exact foldlVal_le _ _
    simp only [List.cons_append, decodeU64Loop, if_pos hd, List.append_eq]
    rw [if_neg (by omega), if_neg (by omega)]
    rw [ih (a * 10 + (d - 48)) (l + 1) (fun x hx => hds x (List.mem_cons_of_mem d hx))
      (by rw [← hval]; exact hbound)]
    simp only [hval, List.length_cons, Prod.mk.injEq, true_and]
    omega

/-- The final value of `*len` is the entry value plus the number of bytes the
loop consumed; the consumed count does not depend on the entry value. -/
theorem decodeU64Loop_shift (ascii : List Nat) (a l : Nat) :
    decodeU64Loop ascii a l =
      ((decodeU64Loop ascii a 0).1, l + (decodeU64Loop ascii a 0).2) := by
  induction ascii generalizing a l with
  | nil => simp [decodeU64Loop]
  | cons c rest ih =>
    by_cases hc : 48 ≤ c ∧ c ≤ 57
    · simp only [decodeU64Loop, if_pos hc]
      by_cases h1 : a * 10 > u64MAXn
      · simp [if_pos h1]
      · rw [if_neg h1, if_neg h1]
        by_cases h2 : a * 10 + (c - 48) > u64MAXn
        · simp [if_pos h2]
        · rw [if_neg h2, if_neg h2, ih (a * 10 + (c - 48)) (l + 1),
            ih (a * 10 + (c - 48)) (0 + 1)]
          simp only [Prod.mk.injEq, true_and]
          omega
    · simp [decodeU64Loop, if_neg hc]

/-- Every byte position counted by the loop holds an ASCII digit. -/
theorem decodeU64Loop_counts_digits (ascii : List Nat) (a : Nat) :
    ∀ j, j < (decodeU64Loop ascii a 0).2 →
      j < ascii.length ∧ 48 ≤ ascii.getD j 0 ∧ ascii.getD j 0 ≤ 57 := by
  induction ascii generalizing a with
  | nil => intro j hj; simp [decodeU64Loop] at hj
  | cons c rest ih =>
    intro j hj
    by_cases hc : 48 ≤ c ∧ c ≤ 57
    · simp only [decodeU64Loop, if_pos hc] at hj
      by_cases h1 : a * 10 > u64MAXn
      · rw [if_pos h1] at hj
        simp only at hj
        have : j = 0 := by omega
        subst this
        simpa using hc
      · rw [if_neg h1] at hj
        by_cases h2 : a * 10 + (c - 48) > u64MAXn
        · rw [if_pos h2] at hj
          simp only at hj
          have : j = 0 := by omega
          subst this
          simpa using hc
        · rw [if_neg h2, decodeU64Loop_shift] at hj
          simp only at hj
          cases j with
          | zero => simpa using hc
          | succ i =>
            have hi := ih (a * 10 + (c - 48)) i (by omega)
            simpa using hi
    · simp [decodeU64Loop, if_neg hc] at hj

/-- Parsing the decimal literal of `m ≤ u64::MAX`, followed by a non-digit
suffix (or nothing), succeeds with value `m` and consumes the literal. -/
theorem decode_u64_decimal (m : Nat) (rest : List Nat) (hm : m ≤ u64MAXn)
    (hrest : ∀ c, rest.head? = some c → ¬(48 ≤ c ∧ c ≤ 57)) :
    decode_u64 (natDecimal m ++ rest) 0 = (some m, (natDecimal m).length) := by
  by_cases hm0 : m = 0
  · subst hm0
    have hdec : natDecimal 0 = [48] := rfl
    rw [hdec]
    cases rest with
    | nil => decide
    | cons c r =>
      unfold decode_u64
      rw [if_neg (by simp), if_pos (by simp)]
      rfl
  · rcases List.exists_cons_of_ne_nil (natDecimal_ne_nil m) with ⟨x, xs, hx⟩
    have hhead := natDecimal_head m (by omega)
    rw [hx] at hhead
    simp only [List.headD_cons] at hhead
    have c1 : ¬((natDecimal m ++ rest).length = 0) := by simp [hx]
    have c2 : ¬(2 ≤ (natDecimal m ++ rest).length ∧ (natDecimal m ++ rest).headD 0 = 48) := by
      rw [hx]
      simp only [List.cons_append, List.headD_cons]
      intro h
      omega
    have hrun := decodeU64Loop_run (natDecimal m) rest 0 0 (natDecimal_digits m) hrest
      (by rw [natDecimal_val]; exact hm)
    rw [natDecimal_val] at hrun
    unfold decode_u64
    rw [if_neg c1, if_neg c2]
    simp only [hrun, Nat.zero_add]
    rw [if_neg (by omega)]

/-- `decode_i64` on the decimal literal of `0 ≤ m ≤ i64::MAX` followed by a
non-digit suffix. -/
theorem decode_i64_decimal_pos (m : Nat) (rest : List Nat) (hm : m ≤ i64MAXn)
    (hrest : ∀ c, rest.head? = some c → ¬(48 ≤ c ∧ c ≤ 57)) :
    decode_i64 (natDecimal m ++ rest) 0 = (some (Int.ofNat m), (natDecimal m).length) := by
  rcases List.exists_cons_of_ne_nil (natDecimal_ne_nil m) with ⟨x, xs, hx⟩
  have hxd : 48 ≤ x ∧ x ≤ 57 := by
    have := natDecimal_digits m x (by rw [hx]; exact List.mem_cons_self x xs)
    exact this
  have c1 : ¬((natDecimal m ++ rest).length = 0) := by simp [hx]
  have hs : ¬((natDecimal m ++ rest).headD 0 = 45) := by
    rw [hx]
    simp only [List.cons_append, List.headD_cons]
    omega
  have hdu : decode_u64 ((natDecimal m ++ rest).drop 0) 0 = (some m, (natDecimal m).length) := by
    rw [List.drop_zero]
    exact decode_u64_decimal m rest
      (by unfold i64MAXn at hm; unfold u64MAXn; omega) hrest
  unfold decode_i64
  rw [if_neg c1]
  simp only [if_neg hs, hdu]
  simp [hm]

/-- `decode_i64` on `'-'` followed by the decimal literal of
`1 ≤ m ≤ 2^63` and a non-digit suffix. -/
theorem decode_i64_decimal_neg (m : Nat) (rest : List Nat) (h1 : 1 ≤ m)
    (hm : m ≤ 2 ^ 63)
    (hrest : ∀ c, rest.head? = some c → ¬(48 ≤ c ∧ c ≤ 57)) :
    decode_i64 (45 :: (natDecimal m ++ rest)) 0 =
      (some (-(m : Int)), (natDecimal m).length + 1) := by
  have hdu : decode_u64 (natDecimal m ++ rest) 0 = (some m, (natDecimal m).length) :=
    decode_u64_decimal m rest (by unfold u64MAXn; omega) hrest
  unfold decode_i64
  rw [if_neg (by simp)]
  by_cases hlt : m < 2 ^ 63
  · simp [hdu]
    rw [if_pos (by omega : m < 9223372036854775808), if_neg (by omega : ¬m = 0)]
  · have hm' : m = 2 ^ 63 := by omega
    subst hm'
    norm_num at hdu ⊢
    simp [hdu]

theorem eHead_not_digit : ∀ c : Nat, ([101] : List Nat).head? = some c → ¬(48 ≤ c ∧ c ≤ 57) := by
  intro c h
  simp only [List.head?_cons, Option.some.injEq] at h
  omega

/-- `decode_integer` on `i<decimal n>e` for `0 ≤ n ≤ i64::MAX`. -/
theorem decode_integer_decimal_pos (n : Nat) (hn : n ≤ i64MAXn) (len : Nat) :
    decode_integer (105 :: (natDecimal n ++ [101])) len =
      (some (.integer (Int.ofNat n)), (natDecimal n).length + 2) := by
  have hL : 1 ≤ (natDecimal n).length :=
    List.length_pos.mpr (natDecimal_ne_nil n)
  have hlen : (105 :: (natDecimal n ++ [101])).length = (natDecimal n).length + 2 := by
    simp
  have hdi : decode_i64 ((105 :: (natDecimal n ++ [101])).drop 1) 0 =
      (some (Int.ofNat n), (natDecimal n).length) := by
    simp only [List.drop_succ_cons, List.drop_zero]
    exact decode_i64_decimal_pos n [101] hn eHead_not_digit
  have hgd : (105 :: (natDecimal n ++ [101])).getD (1 + (natDecimal n).length) 0 = 101 := by
    have h1 : 1 + (natDecimal n).length = (natDecimal n).length + 1 := by omega
    rw [h1, List.getD_cons_succ,
      List.getD_append_right (natDecimal n) [101] 0 _ (Nat.le_refl _)]
    simp
  have hguard : ¬((105 :: (natDecimal n ++ [101])).length < 3 ∨
      (105 :: (natDecimal n ++ [101])).headD 0 ≠ 105) := by
    rw [hlen]
    push_neg
    exact ⟨by omega, by simp⟩
  unfold decode_integer
  rw [if_neg hguard, hdi]
  simp only [ge_iff_le, hlen, hgd, ne_eq]
  rw [if_neg (by omega), if_neg (by simp)]

/-- `decode_integer` on `i-<decimal n>e` for `1 ≤ n ≤ 2^63`. -/
theorem decode_integer_decimal_neg (n : Nat) (h1 : 1 ≤ n) (hn : n ≤ 2 ^ 63) (len : Nat) :
    decode_integer (105 :: 45 :: (natDecimal n ++ [101])) len =
      (some (.integer (-(n : Int))), (natDecimal n).length + 3) := by
  have hL : 1 ≤ (natDecimal n).length :=
    List.length_pos.mpr (natDecimal_ne_nil n)
  have hlen : (105 :: 45 :: (natDecimal n ++ [101])).length = (natDecimal n).length + 3 := by
    simp
  have hdi : decode_i64 ((105 :: 45 :: (natDecimal n ++ [101])).drop 1) 0 =
      (some (-(n : Int)), (natDecimal n).length + 1) := by
    simp only [List.drop_succ_cons, List.drop_zero]
    exact decode_i64_decimal_neg n [101] h1 hn eHead_not_digit
  have hgd : (105 :: 45 :: (natDecimal n ++ [101])).getD
      (1 + ((natDecimal n).length + 1)) 0 = 101 := by
    have h2 : 1 + ((natDecimal n).length + 1) = (natDecimal n).length + 1 + 1 := by omega
    rw [h2, List.getD_cons_succ, List.getD_cons_succ,
      List.getD_append_right (natDecimal n) [101] 0 _ (Nat.le_refl _)]
    simp
  have hguard : ¬((105 :: 45 :: (natDecimal n ++ [101])).length < 3 ∨
      (105 :: 45 :: (natDecimal n ++ [101])).headD 0 ≠ 105) := by
    rw [hlen]
    push_neg
    exact ⟨by omega, by simp⟩
  unfold decode_integer
  rw [if_neg hguard, hdi]
  simp only [ge_iff_le, hlen, hgd, ne_eq]
  rw [if_neg (by omega), if_neg (by simp)]

/-- When the first byte is `'i'`, `decode_all` is `decode_integer`. -/
theorem decode_all_int (fuel : Nat) (b : List Nat) (len : Nat)
    (hne : b.length ≠ 0) (hh : b.headD 0 = 105) :
    decode_all (fuel + 1) b len = .res (decode_integer b len) := by
  have hh' : b.head?.getD 0 = 105 := by
    rw [← List.headD_eq_head?_getD]
    exact hh
  unfold decode_all decodeStep
  simp [hh', hne]

/-- `decode` through the integer production. -/
theorem decode_via_integer (b : List Nat) (hne : b.length ≠ 0) (hh : b.headD 0 = 105)
    (e : Element) (hdi : decode_integer b 0 = (some e, b.length)) :
    decode b = .res (some e) := by
  obtain ⟨k, hk⟩ : ∃ k, 3 * b.length + 3 = k + 1 := ⟨3 * b.length + 2, by omega⟩
  unfold decode
  rw [hk, decode_all_int k b 0 hne hh, hdi]
  simp

/-- When `decode_u64` fails (entry `*len = 0`), every position below the
reported length holds an ASCII digit of the input. -/
theorem decode_u64_fail_digits (ascii : List Nat) (k : Nat)
    (h : decode_u64 ascii 0 = (none, k)) :
    ∀ j, j < k → j < ascii.length ∧ 48 ≤ ascii.getD j 0 ∧ ascii.getD j 0 ≤ 57 := by
  intro j hj
  have hcd := decodeU64Loop_counts_digits ascii 0 j
  unfold decode_u64 at h
  split at h
  · simp only [Prod.mk.injEq] at h
    omega
  · split at h
    · exact absurd h (by simp)
    · split at h
      next len2 heq =>
        simp only [Prod.mk.injEq] at h
        apply hcd
        rw [heq]
        omega
      next num len2 heq =>
        split at h
        · simp only [Prod.mk.injEq] at h
          apply hcd
          rw [heq]
          omega
        · exact absurd h (by simp)

/-- The final `*len` of `decode_u64` is the entry `*len` plus the loop's
consumed count, whenever neither overwrite branch (empty input, leading
zero) is taken. -/
theorem decode_u64_len_shift (ascii : List Nat) (l0 : Nat)
    (h1 : ascii.length ≠ 0) (h2 : ¬(2 ≤ ascii.length ∧ ascii.headD 0 = 48)) :
    (decode_u64 ascii l0).2 = l0 + (decode_u64 ascii 0).2 := by
  have key : ∀ l, (decode_u64 ascii l).2 = l + (decodeU64Loop ascii 0 0).2 := by
    intro l
    unfold decode_u64
    rw [if_neg h1, if_neg h2, decodeU64Loop_shift ascii 0 l]
    rcases hr : (decodeU64Loop ascii 0 0).1 with _ | num
    · simp [hr]
    · simp only [hr]
      split <;> simp
  rw [key l0, key 0]
  omega

/-- The final `*len` of `decode_i64` on a non-empty input is the result of
`decode_u64` on the remainder after the optional sign, plus the sign
offset. -/
theorem decode_i64_len_split (ascii : List Nat) (l : Nat) (hne : ascii.length ≠ 0) :
    (decode_i64 ascii l).2 =
      (decode_u64 (ascii.drop (if ascii.headD 0 = 45 then 1 else 0)) l).2 +
        (if ascii.headD 0 = 45 then 1 else 0) := by
  unfold decode_i64
  rw [if_neg hne]
  simp only [List.headD_eq_head?_getD]
  rcases hr : decode_u64 (ascii.drop (if ascii.head?.getD 0 = 45 then 1 else 0)) l
    with ⟨o, len1⟩
  cases o with
  | none => simp [hr]
  | some num =>
    simp only [hr]
    repeat' split
    all_goals simp

/-! ## Claim theorems -/

/-- C1 (code bug): the claim says every decoding operation returns `Some` or
`None` without panicking, and in particular an input exhausted before the
terminating `e` of a list or dictionary (after a complete inner element,
e.g. `"li1e"`, `"d1:a1:b"`) is `None`.  The code instead evaluates
`bencode[idx]` after the element loop with `idx` equal to the input length:
an out-of-bounds abort.  This theorem evaluates the embedding at those
failing inputs: `decode`, `decode_all`, `decode_list` and
`decode_dictionary` all abort rather than return `None`. -/
theorem claim1_dangling_input_aborts :
    decode (strBytes "li1e") = PRes.panic ∧
    decode (strBytes "d1:a1:b") = PRes.panic ∧
    decode_list 4 (strBytes "li1e") 0 = PRes.panic ∧
    decode_dictionary 7 (strBytes "d1:a1:b") 0 = PRes.panic ∧
    decode_all 5 (strBytes "li1e") 0 = PRes.panic ∧
    decode_all 8 (strBytes "d1:a1:b") 0 = PRes.panic :=
  ⟨rfl, rfl, rfl, rfl, rfl, rfl⟩

/-- C3: if `decode_u64` (entry `*len = 0`) fails with reported length `k`,
the first `k` bytes of the input are exactly the digits consumed before the
failure; concretely the 20-digit literal of `u64::MAX` decodes to `u64::MAX`
with consumed length 20, and the literal of `u64::MAX + 1` fails with
consumed length 20 (every digit consumed before overflow on the last). -/
theorem claim3_overflow_consumed_len :
    (∀ (ascii : List Nat) (k : Nat), decode_u64 ascii 0 = (none, k) →
      ∀ j, j < k → j < ascii.length ∧ 48 ≤ ascii.getD j 0 ∧ ascii.getD j 0 ≤ 57) ∧
    decode_u64 (natDecimal u64MAXn) 0 = (some u64MAXn, 20) ∧
    (natDecimal u64MAXn).length = 20 ∧
    decode_u64 (natDecimal (u64MAXn + 1)) 0 = (none, 20) ∧
    (natDecimal (u64MAXn + 1)).length = 20 :=
  ⟨decode_u64_fail_digits, by decide, by decide, by decide, by decide⟩

/-- Witness for C3 at the literal of `u64::MAX + 1`: position 3 of the
input is within bounds and holds a digit. -/
theorem claim3_overflow_consumed_len_witness :
    3 < (natDecimal (u64MAXn + 1)).length ∧
      48 ≤ (natDecimal (u64MAXn + 1)).getD 3 0 ∧
      (natDecimal (u64MAXn + 1)).getD 3 0 ≤ 57 :=
  claim3_overflow_consumed_len.1 (natDecimal (u64MAXn + 1)) 20 (by decide) 3 (by decide)

/-- C4: strict decode of `i<decimal n>e` yields `Integer n` for every
`0 ≤ n ≤ i64::MAX`, and strict decode of `i-<decimal n>e` yields
`Integer (-n)` for every `1 ≤ n ≤ |i64::MIN|`. -/
theorem claim4_integer_roundtrip :
    (∀ n : Nat, n ≤ i64MAXn →
      decode (105 :: (natDecimal n ++ [101])) = .res (some (.integer (Int.ofNat n)))) ∧
    (∀ n : Nat, 1 ≤ n → n ≤ 2 ^ 63 →
      decode (105 :: 45 :: (natDecimal n ++ [101])) =
        .res (some (.integer (-(n : Int))))) := by
  constructor
  · intro n hn
    apply decode_via_integer
    · simp
    · simp
    · rw [decode_integer_decimal_pos n hn 0]
      simp
  · intro n h1 hn
    apply decode_via_integer
    · simp
    · simp
    · rw [decode_integer_decimal_neg n h1 hn 0]
      simp

/-- Witness for C4: the round trip at the boundary values `i64::MAX` and
`i64::MIN`. -/
theorem claim4_integer_roundtrip_witness :
    decode (105 :: (natDecimal 9223372036854775807 ++ [101])) =
      .res (some (.integer (Int.ofNat 9223372036854775807))) ∧
    decode (105 :: 45 :: (natDecimal 9223372036854775808 ++ [101])) =
      .res (some (.integer (-(9223372036854775808 : Int)))) :=
  ⟨claim4_integer_roundtrip.1 9223372036854775807 (by decide),
   claim4_integer_roundtrip.2 9223372036854775808 (by decide) (by decide)⟩

/-- C5: the strict entry point succeeds exactly when `decode_all` succeeds
with consumed length equal to the input length; `"5:abcdef"` (one trailing
byte) and `"10:abcdef"` (declared length past the end) both fail. -/
theorem claim5_strict_decode :
    (∀ (b : List Nat) (e : Element),
      decode b = .res (some e) ↔
        decode_all (3 * b.length + 3) b 0 = .res (some e, b.length)) ∧
    decode (strBytes "5:abcdef") = .res none ∧
    decode (strBytes "10:abcdef") = .res none := by
  refine ⟨?_, rfl, rfl⟩
  intro b e
  unfold decode
  rcases h : decode_all (3 * b.length + 3) b 0 with _ | _ | ⟨ret, len⟩
  · simp
  · simp
  · simp only
    split
    next hne => simp [hne]
    next heq =>
      have hl : len = b.length := by
        by_contra hc
        exact heq hc
      subst hl
      simp

/-- Witness for C5 on a small concrete input. -/
theorem claim5_strict_decode_witness :
    decode (strBytes "i42e") = .res (some (.integer 42)) ↔
      decode_all (3 * (strBytes "i42e").length + 3) (strBytes "i42e") 0 =
        .res (some (.integer 42), (strBytes "i42e").length) :=
  claim5_strict_decode.1 (strBytes "i42e") (.integer 42)

/-- C8: any input of length at least 2 starting with `'0'` decodes to 0 with
consumed length 1 (the second byte is never consumed), and the one-byte
input `"0"` also decodes to 0 with consumed length 1. -/
theorem claim8_leading_zero :
    (∀ ascii : List Nat, 2 ≤ ascii.length → ascii.headD 0 = 48 →
      decode_u64 ascii 0 = (some 0, 1)) ∧
    decode_u64 [48] 0 = (some 0, 1) := by
  constructor
  · intro ascii h2 hh
    unfold decode_u64
    rw [if_neg (by omega), if_pos ⟨h2, hh⟩]
  · decide

/-- Witness for C8 on `"09"`: the second digit is not consumed. -/
theorem claim8_leading_zero_witness : decode_u64 [48, 57] 0 = (some 0, 1) :=
  claim8_leading_zero.1 [48, 57] (by decide) (by decide)

/-- C9: `decode_u64` fails with consumed length 0 on the empty input and on
any input led by `'+'` (or `'-'`: sign bytes are never consumed);
`decode_i64` fails on `"-0"` with consumed length 2 and on a bare `"-"`
with consumed length 1. -/
theorem claim9_sign_and_zero_rejection :
    decode_u64 [] 0 = (none, 0) ∧
    (∀ rest : List Nat, decode_u64 (43 :: rest) 0 = (none, 0)) ∧
    (∀ rest : List Nat, decode_u64 (45 :: rest) 0 = (none, 0)) ∧
    decode_i64 [45, 48] 0 = (none, 2) ∧
    decode_i64 [45] 0 = (none, 1) := by
  refine ⟨by decide, ?_, ?_, by decide, by decide⟩
  · intro rest
    unfold decode_u64
    rw [if_neg (by simp), if_neg (by simp)]
    simp [decodeU64Loop]
  · intro rest
    unfold decode_u64
    rw [if_neg (by simp), if_neg (by simp)]
    simp [decodeU64Loop]

/-- Witness for C9: the sign bytes are not consumed on `"+1"` and `"-1"`. -/
theorem claim9_sign_and_zero_rejection_witness :
    decode_u64 [43, 49] 0 = (none, 0) ∧ decode_u64 [45, 49] 0 = (none, 0) :=
  ⟨claim9_sign_and_zero_rejection.2.1 [49], claim9_sign_and_zero_rejection.2.2.1 [49]⟩

/-- C10: `decode_u64` and `decode_i64` increment the `len` out-parameter
per consumed byte rather than setting it, so outside the two overwrite
branches (empty input, leading zero) the final `*len` is the entry `*len`
plus the count consumed starting from 0; for `decode_i64` that count is the
`decode_u64` count of the post-sign remainder plus 1 for a leading `'-'`.
The two overwrite branches set `*len` to 0 resp. 1 regardless of entry. -/
theorem claim10_len_accumulates :
    (∀ (ascii : List Nat) (l0 : Nat), ascii.length ≠ 0 →
      ¬(2 ≤ ascii.length ∧ ascii.headD 0 = 48) →
      (decode_u64 ascii l0).2 = l0 + (decode_u64 ascii 0).2) ∧
    (∀ (ascii : List Nat) (l0 : Nat),
      (ascii.drop (if ascii.headD 0 = 45 then 1 else 0)).length ≠ 0 →
      ¬(2 ≤ (ascii.drop (if ascii.headD 0 = 45 then 1 else 0)).length ∧
          (ascii.drop (if ascii.headD 0 = 45 then 1 else 0)).headD 0 = 48) →
      (decode_i64 ascii l0).2 = l0 + (decode_i64 ascii 0).2 ∧
      (decode_i64 ascii 0).2 =
        (decode_u64 (ascii.drop (if ascii.headD 0 = 45 then 1 else 0)) 0).2 +
          (if ascii.headD 0 = 45 then 1 else 0)) ∧
    (∀ l0 : Nat, (decode_u64 [] l0).2 = 0) ∧
    (∀ (ascii : List Nat) (l0 : Nat), 2 ≤ ascii.length → ascii.headD 0 = 48 →
      (decode_u64 ascii l0).2 = 1) := by
  refine ⟨decode_u64_len_shift, ?_, ?_, ?_⟩
  · intro ascii l0 h1 h2
    have hne : ascii.length ≠ 0 := by
      intro h0
      rw [List.length_eq_zero.mp h0] at h1
      simp at h1
    have hu := decode_u64_len_shift (ascii.drop (if ascii.headD 0 = 45 then 1 else 0)) l0 h1 h2
    have ha := decode_i64_len_split ascii l0 hne
    have hb := decode_i64_len_split ascii 0 hne
    constructor
    · rw [ha, hb, hu]
      omega
    · exact hb
  · intro l0
    rfl
  · intro ascii h2 hh h0
    unfold decode_u64
    rw [if_neg (by omega), if_pos ⟨hh, h0⟩]

/-- Witness for C10: entry `*len = 5` on `"12"` and on `"-12"`. -/
theorem claim10_len_accumulates_witness :
    (decode_u64 [49, 50] 5).2 = 5 + (decode_u64 [49, 50] 0).2 ∧
    (decode_i64 [45, 49, 50] 5).2 = 5 + (decode_i64 [45, 49, 50] 0).2 :=
  ⟨claim10_len_accumulates.1 [49, 50] 5 (by decide) (by decide),
   (claim10_len_accumulates.2.1 [45, 49, 50] 5 (by decide) (by decide)).1⟩

/-! ## Lemmas for the metadata schema claims -/

theorem dictGet_erase_self (d : List (List Nat × Element)) (k : List Nat) :
    dictGet (dictErase d k) k = none := by
  induction d with
  | nil => rfl
  | cons e rest ih =>
    unfold dictErase at ih ⊢
    rw [List.filter_cons]
    by_cases he : e.1 = k
    · rw [if_neg (by simp [he])]
      exact ih
    · rw [if_pos (by simp [he])]
      unfold dictGet at ih ⊢
      rw [List.find?_cons_of_neg _ (by simp [he])]
      exact ih

theorem dictGet_erase_ne (d : List (List Nat × Element)) (k k' : List Nat)
    (h : k' ≠ k) : dictGet (dictErase d k) k' = dictGet d k' := by
  induction d with
  | nil => rfl
  | cons e rest ih =>
    unfold dictErase at ih ⊢
    rw [List.filter_cons]
    by_cases he : e.1 = k
    · rw [if_neg (by simp [he])]
      rw [ih]
      unfold dictGet
      rw [List.find?_cons_of_neg _ (by simp [he]; exact Ne.symm h)]
    · rw [if_pos (by simp [he])]
      unfold dictGet at ih ⊢
      by_cases hk : ((fun x : List Nat × Element => x.1 == k') e) = true
      · rw [@List.find?_cons_of_pos _ (fun x => x.1 == k') e _ hk,
          @List.find?_cons_of_pos _ (fun x => x.1 == k') e _ hk]
      · rw [@List.find?_cons_of_neg _ (fun x => x.1 == k') e _ hk,
          @List.find?_cons_of_neg _ (fun x => x.1 == k') e _ hk]
        exact ih

theorem optionCollect_map_none {α β : Type} (f : α → Option β) (l : List α)
    (e : α) (he : e ∈ l) (hf : f e = none) :
    optionCollect (l.map f) = none := by
  induction l with
  | nil => cases he
  | cons a rest ih =>
    rcases List.mem_cons.mp he with h | h
    · subst h
      simp only [List.map_cons, optionCollect, hf]
    · simp only [List.map_cons]
      rcases ha : f a with _ | b
      · rfl
      · simp only [optionCollect, ih h]
        rfl

theorem applyCreationDate_info (d : List (List Nat × Element)) (ret : MetaInfo) :
    (applyCreationDate d ret).info = ret.info := by
  unfold applyCreationDate
  split <;> rfl

theorem applyComment_info (d : List (List Nat × Element)) (ret : MetaInfo) :
    (applyComment d ret).info = ret.info := by
  unfold applyComment
  split <;> rfl

theorem applyCreatedBy_info (d : List (List Nat × Element)) (ret : MetaInfo) :
    (applyCreatedBy d ret).info = ret.info := by
  unfold applyCreatedBy
  split <;> rfl

theorem applyEncoding_info (d : List (List Nat × Element)) (ret : MetaInfo) :
    (applyEncoding d ret).info = ret.info := by
  unfold applyEncoding
  split <;> rfl

theorem applyRest_info (d : List (List Nat × Element)) (ret : MetaInfo) :
    (applyRest d ret).info = ret.info := by
  unfold applyRest
  rw [applyEncoding_info, applyCreatedBy_info, applyComment_info, applyCreationDate_info]

theorem applyCreationDate_announce_list (d : List (List Nat × Element)) (ret : MetaInfo) :
    (applyCreationDate d ret).announce_list = ret.announce_list := by
  unfold applyCreationDate
  split <;> rfl

theorem applyComment_announce_list (d : List (List Nat × Element)) (ret : MetaInfo) :
    (applyComment d ret).announce_list = ret.announce_list := by
  unfold applyComment
  split <;> rfl

theorem applyCreatedBy_announce_list (d : List (List Nat × Element)) (ret : MetaInfo) :
    (applyCreatedBy d ret).announce_list = ret.announce_list := by
  unfold applyCreatedBy
  split <;> rfl

theorem applyEncoding_announce_list (d : List (List Nat × Element)) (ret : MetaInfo) :
    (applyEncoding d ret).announce_list = ret.announce_list := by
  unfold applyEncoding
  split <;> rfl

theorem applyRest_announce_list (d : List (List Nat × Element)) (ret : MetaInfo) :
    (applyRest d ret).announce_list = ret.announce_list := by
  unfold applyRest
  rw [applyEncoding_announce_list, applyCreatedBy_announce_list,
    applyComment_announce_list, applyCreationDate_announce_list]

/-- Erasing the `"announce-list"` key does not change the four other
optional-field updates. -/
theorem applyRest_erase_al (d : List (List Nat × Element)) (ret : MetaInfo) :
    applyRest (dictErase d (strBytes "announce-list")) ret = applyRest d ret := by
  unfold applyRest applyCreationDate applyComment applyCreatedBy applyEncoding
  rw [dictGet_erase_ne d _ _ (by decide), dictGet_erase_ne d _ _ (by decide),
    dictGet_erase_ne d _ _ (by decide), dictGet_erase_ne d _ _ (by decide)]

theorem applyOptionals_absent (d : List (List Nat × Element)) (ret : MetaInfo)
    (h : dictGet d (strBytes "announce-list") = none) :
    applyOptionals d ret = some (applyRest d ret) := by
  unfold applyOptionals
  rw [h]

/-- When the `"announce-list"` value is a list one of whose elements fails
`convert_to_string_list`, the collected field is absent and nothing else
fails. -/
theorem applyOptionals_drop (d : List (List Nat × Element)) (ret : MetaInfo)
    (l : List Element)
    (hget : dictGet d (strBytes "announce-list") = some (.list l))
    (e : Element) (he : e ∈ l) (hf : convert_to_string_list e = none) :
    applyOptionals d ret = some (applyRest d { ret with announce_list := none }) := by
  unfold applyOptionals
  rw [hget]
  simp only [convert_to_ref_list]
  rw [optionCollect_map_none convert_to_string_list l e he hf]

theorem applyOptionals_info (d : List (List Nat × Element)) (ret : MetaInfo)
    (m : MetaInfo) (h : applyOptionals d ret = some m) : m.info = ret.info := by
  unfold applyOptionals at h
  split at h
  · injection h with h'
    rw [← h', applyRest_info]
  · split at h
    · simp at h
    · injection h with h'
      rw [← h', applyRest_info]

/-- `MetaInfo::from_element` only looks at the root dictionary through the
`"announce"` and `"info"` lookups and the optional-field pass. -/
theorem from_element_congr (d d' : List (List Nat × Element))
    (h1 : dictGet d' (strBytes "announce") = dictGet d (strBytes "announce"))
    (h2 : dictGet d' (strBytes "info") = dictGet d (strBytes "info"))
    (h3 : ∀ i a, applyOptionals d' (MetaInfo.new i a) = applyOptionals d (MetaInfo.new i a)) :
    MetaInfo.from_element (.dictionary d') = MetaInfo.from_element (.dictionary d) := by
  unfold MetaInfo.from_element
  simp only [h1, h2]
  rcases ha : dictGet d (strBytes "announce") with _ | ae <;> simp only [ha]
  rcases hb : convert_to_str ae with _ | announce <;> simp only [hb]
  rcases hc : dictGet d (strBytes "info") with _ | ie <;> simp only [hc]
  rcases hcd : convert_to_dict ie with _ | info_dict <;> simp only [hcd]
  rcases hfd : CommonFileInfo.from_dict info_dict with _ | cfi <;> simp only [hfd]
  rcases hn : dictGet info_dict (strBytes "name") with _ | nm <;> simp only [hn]
  rcases hcs : convert_to_str nm with _ | name <;> simp only [hcs]
  rcases hfe : dictGet info_dict (strBytes "files") with _ | files <;> simp only [hfe]
  · rcases hsi : SingleFileInfo.new_with_common_info cfi info_dict
      with _ | si <;> simp only [hsi]
    exact h3 _ _
  · rcases hrl : convert_to_ref_list files with _ | fl <;> simp only [hrl]
    rcases hmi : MultipleFileInfo.new_with_common_info cfi name fl
      with _ | mi <;> simp only [hmi]
    exact h3 _ _

/-- A successful `MetaInfo::from_element` is the optional-field pass applied
to a freshly constructed `MetaInfo`. -/
theorem from_element_success (d : List (List Nat × Element)) (m : MetaInfo)
    (h : MetaInfo.from_element (.dictionary d) = some m) :
    ∃ i a, applyOptionals d (MetaInfo.new i a) = some m := by
  unfold MetaInfo.from_element at h
  rcases ha : dictGet d (strBytes "announce") with _ | ae
  · simp [ha] at h
  · simp only [ha] at h
    rcases hb : convert_to_str ae with _ | announce
    · simp [hb] at h
    · simp only [hb] at h
      rcases hc : dictGet d (strBytes "info") with _ | ie
      · simp [hc] at h
      · simp only [hc] at h
        rcases hcd : convert_to_dict ie with _ | info_dict
        · simp [hcd] at h
        · simp only [hcd] at h
          rcases hfd : CommonFileInfo.from_dict info_dict with _ | cfi
          · simp [hfd] at h
          · simp only [hfd] at h
            rcases hn : dictGet info_dict (strBytes "name") with _ | nm
            · simp [hn] at h
            · simp only [hn] at h
              rcases hcs : convert_to_str nm with _ | name
              · simp [hcs] at h
              · simp only [hcs] at h
                rcases hfe : dictGet info_dict (strBytes "files") with _ | files
                · simp only [hfe] at h
                  rcases hsi : SingleFileInfo.new_with_common_info cfi info_dict
                    with _ | si
                  · simp [hsi] at h
                  · simp only [hsi] at h
                    exact ⟨_, _, h⟩
                · simp only [hfe] at h
                  rcases hrl : convert_to_ref_list files with _ | fl
                  · simp [hrl] at h
                  · simp only [hrl] at h
                    rcases hmi : MultipleFileInfo.new_with_common_info cfi name fl
                      with _ | mi
                    · simp [hmi] at h
                    · simp only [hmi] at h
                      exact ⟨_, _, h⟩

theorem single_success_length (cfi : CommonFileInfo)
    (idict : List (List Nat × Element)) (si : SingleFileInfo)
    (h : SingleFileInfo.new_with_common_info cfi idict = some si) :
    (dictGet idict (strBytes "length")).isSome := by
  unfold SingleFileInfo.new_with_common_info at h
  rcases h1 : dictGet idict (strBytes "name") with _ | nm
  · simp [h1] at h
  · simp only [h1] at h
    rcases h2 : convert_to_str nm with _ | name
    · simp [h2] at h
    · simp only [h2] at h
      rcases h3 : dictGet idict (strBytes "length") with _ | le'
      · simp [h3] at h
      · rfl

theorem chunksGo_join : ∀ (f : Nat) (l : List Nat), l.length ≤ f →
    (chunksGo f l).flatten = l := by
  intro f
  induction f with
  | zero =>
    intro l h
    have hl : l = [] := List.length_eq_zero.mp (by omega)
    subst hl
    rfl
  | succ f ih =>
    intro l h
    cases l with
    | nil => rfl
    | cons x xs =>
      simp only [chunksGo, List.flatten_cons]
      rw [ih ((x :: xs).drop 20)
        (by simp only [List.length_drop, List.length_cons] at h ⊢; omega)]
      exact List.take_append_drop 20 (x :: xs)

theorem chunksGo_length : ∀ (f k : Nat) (l : List Nat), l.length ≤ f →
    l.length = 20 * k → (chunksGo f l).length = k := by
  intro f
  induction f with
  | zero =>
    intro k l h h20
    have hl : l = [] := List.length_eq_zero.mp (by omega)
    subst hl
    simp only [List.length_nil] at h20
    simp only [chunksGo, List.length_nil]
    omega
  | succ f ih =>
    intro k l h h20
    cases l with
    | nil =>
      simp only [List.length_nil] at h20
      simp only [chunksGo, List.length_nil]
      omega
    | cons x xs =>
      simp only [chunksGo, List.length_cons]
      rw [ih (k - 1) ((x :: xs).drop 20)
        (by simp only [List.length_drop, List.length_cons] at h ⊢; omega)
        (by simp only [List.length_drop, List.length_cons] at h20 ⊢; omega)]
      simp only [List.length_cons] at h20
      omega

theorem chunksGo_mem_length : ∀ (f k : Nat) (l : List Nat), l.length ≤ f →
    l.length = 20 * k → ∀ c ∈ chunksGo f l, c.length = 20 := by
  intro f
  induction f with
  | zero =>
    intro k l h h20 c hc
    have hl : l = [] := List.length_eq_zero.mp (by omega)
    subst hl
    simp [chunksGo] at hc
  | succ f ih =>
    intro k l h h20 c hc
    cases l with
    | nil => simp [chunksGo] at hc
    | cons x xs =>
      simp only [chunksGo, List.mem_cons] at hc
      rcases hc with hc | hc
      · subst hc
        simp only [List.length_take, List.length_cons]
        simp only [List.length_cons] at h20
        omega
      · exact ih (k - 1) ((x :: xs).drop 20)
          (by simp only [List.length_drop, List.length_cons] at h ⊢; omega)
          (by simp only [List.length_drop, List.length_cons] at h20 ⊢; omega)
          c hc

/-- C6: `CommonFileInfo` construction fails whenever the pieces byte string
length is not a multiple of 20 (also through `from_dict`: no partial value
is produced), and on a length of exactly `20 * k` it succeeds with `k`
ordered hashes of 20 bytes each whose concatenation is the input. -/
theorem claim6_piece_hash_invariant :
    (∀ (p : List Nat) (pl : Nat) (pr : Bool), p.length % 20 ≠ 0 →
      CommonFileInfo.new pl p pr = none ∧
      ∀ d, dictGet d (strBytes "pieces") = some (.byteString p) →
        CommonFileInfo.from_dict d = none) ∧
    (∀ (p : List Nat) (pl : Nat) (pr : Bool) (k : Nat), p.length = 20 * k →
      ∃ c, CommonFileInfo.new pl p pr = some c ∧ c.pieces.length = k ∧
        (∀ h ∈ c.pieces, h.length = 20) ∧ c.pieces.flatten = p) := by
  constructor
  · intro p pl pr hmod
    constructor
    · unfold CommonFileInfo.new
      rw [if_pos hmod]
    · intro d hget
      unfold CommonFileInfo.from_dict
      rcases h1 : dictGet d (strBytes "piece length") with _ | ple
      · simp [h1]
      · simp only [h1]
        rcases h2 : convert_to_u64 ple with _ | plen
        · simp [h2]
        · simp only [h2, hget, convert_to_ref_vec_u8]
          unfold CommonFileInfo.new
          rw [if_pos hmod]
  · intro p pl pr k hk
    refine ⟨⟨pl, chunks20 p, pr⟩, ?_, ?_, ?_, ?_⟩
    · unfold CommonFileInfo.new
      rw [if_neg (by rw [hk]; simp [Nat.mul_mod_right])]
    · exact chunksGo_length p.length k p (Nat.le_refl _) hk
    · exact chunksGo_mem_length p.length k p (Nat.le_refl _) hk
    · exact chunksGo_join p.length p (Nat.le_refl _)

/-- Witness for C6: a 40-byte pieces string yields two 20-byte hashes whose
concatenation is the input; a 1-byte pieces string fails to construct. -/
theorem claim6_piece_hash_invariant_witness :
    (∃ c, CommonFileInfo.new 1 (List.replicate 40 7) false = some c ∧
      c.pieces.length = 2 ∧ (∀ h ∈ c.pieces, h.length = 20) ∧
      c.pieces.flatten = List.replicate 40 7) ∧
    CommonFileInfo.new 1 [7] false = none :=
  ⟨claim6_piece_hash_invariant.2 (List.replicate 40 7) 1 false 2 (by decide),
   (claim6_piece_hash_invariant.1 [7] 1 false (by decide)).1⟩

/-- C2: when the root dictionary's optional `"announce-list"` value is a
list one of whose elements fails to parse as a list of strings, only that
optional field is dropped (`announce_list` is absent): the document decodes
to exactly the `MetaInfo` obtained when the key is absent altogether. -/
theorem claim2_announce_list_failure_drops_field
    (d : List (List Nat × Element)) (l : List Element) (m₀ : MetaInfo)
    (hget : dictGet d (strBytes "announce-list") = some (.list l))
    (hfail : ∃ e, e ∈ l ∧ convert_to_string_list e = none)
    (h₀ : MetaInfo.from_element
      (.dictionary (dictErase d (strBytes "announce-list"))) = some m₀) :
    MetaInfo.from_element (.dictionary d) = some m₀ ∧ m₀.announce_list = none := by
  obtain ⟨e, he, hf⟩ := hfail
  have hcong : MetaInfo.from_element
      (.dictionary (dictErase d (strBytes "announce-list"))) =
      MetaInfo.from_element (.dictionary d) := by
    apply from_element_congr
    · exact dictGet_erase_ne d _ _ (by decide)
    · exact dictGet_erase_ne d _ _ (by decide)
    · intro i a
      rw [applyOptionals_absent _ _ (dictGet_erase_self d _),
        applyOptionals_drop d _ l hget e he hf, applyRest_erase_al]
      rfl
  constructor
  · rw [← hcong]
    exact h₀
  · obtain ⟨i, a, hap⟩ := from_element_success _ _ h₀
    rw [applyOptionals_absent _ _ (dictGet_erase_self d _)] at hap
    injection hap with hap'
    rw [← hap', applyRest_erase_al, applyRest_announce_list]
    rfl

/-- C7: given a successful `MetaInfo::from_element` whose info dictionary is
`idict`, the variant is `MultipleFile` exactly when `idict` has a `"files"`
key (whatever its value, even an empty list) and `SingleFile` when it does
not, in which case the required `"length"` key is present; in both variants
the required `"name"` key projects to a string. -/
theorem claim7_variant_selection (d idict : List (List Nat × Element)) (m : MetaInfo)
    (h : MetaInfo.from_element (.dictionary d) = some m)
    (hinfo : dictGet d (strBytes "info") = some (.dictionary idict)) :
    ((∃ fs, dictGet idict (strBytes "files") = some fs) →
      ∃ mi, m.info = FileInfo.multipleFile mi) ∧
    (dictGet idict (strBytes "files") = none →
      (∃ si, m.info = FileInfo.singleFile si) ∧
      (dictGet idict (strBytes "length")).isSome) ∧
    (∃ nm, dictGet idict (strBytes "name") = some nm ∧ (convert_to_str nm).isSome) := by
  unfold MetaInfo.from_element at h
  rcases ha : dictGet d (strBytes "announce") with _ | ae
  · simp [ha] at h
  · simp only [ha] at h
    rcases hb : convert_to_str ae with _ | announce
    · simp [hb] at h
    · simp only [hb] at h
      simp only [hinfo, convert_to_dict] at h
      rcases hfd : CommonFileInfo.from_dict idict with _ | cfi
      · simp [hfd] at h
      · simp only [hfd] at h
        rcases hn : dictGet idict (strBytes "name") with _ | nm
        · simp [hn] at h
        · simp only [hn] at h
          rcases hcs : convert_to_str nm with _ | name
          · simp [hcs] at h
          · simp only [hcs] at h
            refine ⟨?_, ?_, nm, rfl, by rw [hcs]; rfl⟩
            · rintro ⟨fs, hfs⟩
              simp only [hfs] at h
              rcases hrl : convert_to_ref_list fs with _ | fl
              · simp [hrl] at h
              · simp only [hrl] at h
                rcases hmi : MultipleFileInfo.new_with_common_info cfi name fl
                  with _ | mi
                · simp [hmi] at h
                · simp only [hmi] at h
                  have hi := applyOptionals_info _ _ _ h
                  exact ⟨mi, by rw [hi]; rfl⟩
            · intro habs
              simp only [habs] at h
              rcases hsi : SingleFileInfo.new_with_common_info cfi idict with _ | si
              · simp [hsi] at h
              · simp only [hsi] at h
                have hi := applyOptionals_info _ _ _ h
                exact ⟨⟨si, by rw [hi]; rfl⟩, single_success_length cfi idict si hsi⟩

/-- A complete concrete torrent info dictionary with an empty `"files"` list
(zero pieces, so the piece-hash invariant holds trivially). -/
def exampleInfoDict : List (List Nat × Element) :=
  [(strBytes "piece length", .integer 1),
   (strBytes "pieces", .byteString []),
   (strBytes "name", .byteString (strBytes "n")),
   (strBytes "files", .list [])]

/-- A concrete root dictionary for the empty-files torrent. -/
def exampleTorrentDict : List (List Nat × Element) :=
  [(strBytes "announce", .byteString (strBytes "a")),
   (strBytes "info", .dictionary exampleInfoDict)]

/-- The `MetaInfo` value decoded from `exampleTorrentDict`. -/
def exampleMetaInfo : MetaInfo :=
  ⟨FileInfo.multipleFile ⟨⟨1, [], false⟩, strBytes "n", []⟩,
    strBytes "a", none, none, none, none, none⟩

/-- Witness for C7 on the empty-files dictionary: `from_element` succeeds
and selects the `MultipleFile` variant even though the files list is empty. -/
theorem claim7_variant_selection_witness :
    ((∃ fs, dictGet exampleInfoDict (strBytes "files") = some fs) →
      ∃ mi, exampleMetaInfo.info = FileInfo.multipleFile mi) ∧
    (dictGet exampleInfoDict (strBytes "files") = none →
      (∃ si, exampleMetaInfo.info = FileInfo.singleFile si) ∧
      (dictGet exampleInfoDict (strBytes "length")).isSome) ∧
    (∃ nm, dictGet exampleInfoDict (strBytes "name") = some nm ∧
      (convert_to_str nm).isSome) :=
  claim7_variant_selection exampleTorrentDict exampleInfoDict exampleMetaInfo
    (by rfl) (by rfl)

/-- The empty-files torrent dictionary extended with a malformed
`"announce-list"` (its single element is an integer, not a list of
strings). -/
def exampleTorrentDictAL : List (List Nat × Element) :=
  exampleTorrentDict ++ [(strBytes "announce-list", .list [.integer 7])]

/-- Witness for C2: the malformed `"announce-list"` only drops the optional
field; the document still decodes and the other fields are unaffected. -/
theorem claim2_announce_list_failure_drops_field_witness :
    MetaInfo.from_element (.dictionary exampleTorrentDictAL) = some exampleMetaInfo ∧
    exampleMetaInfo.announce_list = none :=
  claim2_announce_list_failure_drops_field exampleTorrentDictAL [.integer 7]
    exampleMetaInfo (by rfl) ⟨.integer 7, by simp, by rfl⟩ (by rfl)

/-! ## Cross-checks of the embedding against the repository's unit tests
(`decode_u64_test`, `decode_i64_test` in utils.rs and lib.rs, and
`decode_test` in lib.rs). -/

example : decode_u64 [49, 50, 51, 52] 0 = (some 1234, 4) := by decide
example : decode_u64 [48] 0 = (some 0, 1) := by decide
example : decode_u64 [] 0 = (none, 0) := by decide
example : decode_u64 [45, 49] 0 = (none, 0) := by decide
example : decode_u64 [48, 49] 0 = (some 0, 1) := by decide
example : decode_u64 [49, 50, 51, 52, 43, 49] 0 = (some 1234, 4) := by decide
example : decode_i64 [45, 49, 50, 51, 52] 0 = (some (-1234), 5) := by decide
example : decode_i64 [43, 49] 0 = (none, 0) := by decide
example : decode_i64 [45, 48] 0 = (none, 2) := by decide
example : decode_i64 [45, 43] 0 = (none, 1) := by decide
example : decode_i64 [45, 45, 43] 0 = (none, 1) := by decide
example : decode (strBytes "0:") = .res (some (.byteString [])) := by rfl
example : decode (strBytes "5:a cde") = .res (some (.byteString (strBytes "a cde"))) := by rfl
example : decode (strBytes "5:abcdef") = .res none := by rfl
example : decode (strBytes "10:abcdef") = .res none := by rfl
example : decode (strBytes "i0e") = .res (some (.integer 0)) := by rfl
example : decode (strBytes "i-0e") = .res none := by rfl
example : decode (strBytes "i-10e") = .res (some (.integer (-10))) := by rfl
example : decode (strBytes "i0123e") = .res none := by rfl
example : decode (strBytes "le") = .res (some (.list [])) := by rfl
example : decode (strBytes "li1ei2ee") = .res (some (.list [.integer 1, .integer 2])) := by rfl
example : decode (strBytes "li1e2:ablee") =
    .res (some (.list [.integer 1, .byteString (strBytes "ab"), .list []])) := by rfl
example : decode (strBytes "de") = .res (some (.dictionary [])) := by rfl
example : decode (strBytes "d1:a1:be") =
    .res (some (.dictionary [(strBytes "a", .byteString (strBytes "b"))])) := by rfl
example : decode (strBytes "li1e") = .panic := by rfl
example : decode (strBytes "d1:a1:b") = .panic := by rfl
